import Mathlib

/-!
Verification development for the on-device OCR business-card parser
(`src/services/onDeviceOcrService.ts`) of the bizcard-ai-scanner repository.

The TypeScript source is shallowly embedded here: every helper function of the
source file is translated to an executable Lean definition of the same name,
operating on `List Char` (JavaScript strings are sequences of code points in
the BMP range used by this program).  JavaScript regular expressions are
embedded through a small backtracking-matcher combinator library whose
alternative order mirrors the JS engine's leftmost-match, greedy-first
backtracking semantics.  Character classes such as `\p{Lu}` and `\p{Ll}` are
restricted to the Latin and Cyrillic ranges, the only scripts the source's
patterns target; `\w` (used by `\b`) is ASCII `[A-Za-z0-9_]` exactly as in
JavaScript.
-/

namespace BizcardOcr

/-- JavaScript `\s` class restricted to the whitespace code points relevant
here (ASCII whitespace, NBSP, BOM, general punctuation spaces).  Stated on
`Char.toNat` so that disjointness from the other classes is arithmetic. -/
def isSpaceJS (c : Char) : Bool :=
  c.toNat = 32 || c.toNat = 9 || c.toNat = 10 || c.toNat = 13 ||
  c.toNat = 11 || c.toNat = 12 ||
  c.toNat = 0xa0 || c.toNat = 0xfeff ||
  c.toNat = 0x1680 || (0x2000 ≤ c.toNat && c.toNat ≤ 0x200a) ||
  c.toNat = 0x2028 || c.toNat = 0x2029 ||
  c.toNat = 0x202f || c.toNat = 0x205f || c.toNat = 0x3000

/-- JavaScript `\d`: ASCII digits `0`-`9`. -/
def isDigitChar (c : Char) : Bool :=
  48 ≤ c.toNat && c.toNat ≤ 57

/-- The range `A`-`Z`. -/
def isAsciiUpper (c : Char) : Bool := 65 ≤ c.toNat && c.toNat ≤ 90

/-- The range `a`-`z`. -/
def isAsciiLower (c : Char) : Bool := 97 ≤ c.toNat && c.toNat ≤ 122

def isAsciiLetter (c : Char) : Bool := isAsciiUpper c || isAsciiLower c

/-- Cyrillic uppercase А-Я plus Ё. -/
def isCyrUpper (c : Char) : Bool :=
  (0x410 ≤ c.toNat && c.toNat ≤ 0x42f) || c.toNat = 0x401

/-- Cyrillic lowercase а-я plus ё. -/
def isCyrLower (c : Char) : Bool :=
  (0x430 ≤ c.toNat && c.toNat ≤ 0x44f) || c.toNat = 0x451

/-- The class `[A-ZА-ЯЁ]` used by the source for capital letters. -/
def isUpperLet (c : Char) : Bool := isAsciiUpper c || isCyrUpper c

/-- The class `[a-zа-яё]` used by the source for lowercase letters. -/
def isLowerLet (c : Char) : Bool := isAsciiLower c || isCyrLower c

/-- The class `[A-Za-zА-Яа-яЁё]` of letters the source recognises. -/
def isAnyLetter (c : Char) : Bool :=
  isAsciiLetter c || isCyrUpper c || isCyrLower c

/-- JavaScript `\w`: ASCII letters, digits, and underscore (this is what the
`\b` assertion is based on, even under the `u` flag). -/
def isWordJS (c : Char) : Bool :=
  isAsciiLetter c || isDigitChar c || c = Char.ofNat 95

def isWordOpt : Option Char → Bool
  | none => false
  | some c => isWordJS c

/-- Case folding for the Latin and Cyrillic ranges (JS `toLowerCase` on the
characters this program manipulates). -/
def charLower (c : Char) : Char :=
  if isAsciiUpper c then Char.ofNat (c.toNat + 32)
  else if 0x410 ≤ c.toNat && c.toNat ≤ 0x42f then Char.ofNat (c.toNat + 32)
  else if c.toNat = 0x401 then Char.ofNat 0x451
  else c

def lowerStr (l : List Char) : List Char := l.map charLower

/-- JavaScript `String.prototype.trim`: strip `\s` from both ends. -/
def jsTrim (l : List Char) : List Char :=
  ((l.dropWhile isSpaceJS).reverse.dropWhile isSpaceJS).reverse

/-- Length of the maximal run of characters satisfying `p` at the front. -/
def countRun (p : Char → Bool) : List Char → Nat
  | [] => 0
  | c :: rest => if p c then countRun p rest + 1 else 0

/-- `replace(/\s+/g, " ")`: each maximal whitespace run becomes one space
(including runs at the ends of the string). -/
def collapseWsAux (pending : Bool) : List Char → List Char
  | [] => if pending then [' '] else []
  | c :: rest =>
    if isSpaceJS c then collapseWsAux true rest
    else if pending then ' ' :: c :: collapseWsAux false rest
    else c :: collapseWsAux false rest

/-- `normalizeLine` from the source: `line.replace(/\s+/g, " ").trim()`. -/
def normalizeLine (line : List Char) : List Char :=
  jsTrim (collapseWsAux false line)

/-- `replace(/\s{2,}/g, " ")`: whitespace runs of length at least two become a
single space; single whitespace characters are kept verbatim.  Every step
consumes at least one character, so using the input length as structural
fuel makes the recursion total and kernel-reducible. -/
def collapseMultiGo : Nat → List Char → List Char
  | _, [] => []
  | 0, l => l
  | fuel + 1, c :: rest =>
    if isSpaceJS c then
      let k := countRun isSpaceJS rest
      if k = 0 then c :: collapseMultiGo fuel rest
      else ' ' :: collapseMultiGo fuel (rest.drop k)
    else c :: collapseMultiGo fuel rest

def collapseMulti (l : List Char) : List Char := collapseMultiGo l.length l

/-- Case-insensitive "starts with" over code points. -/
def startsWithCI : List Char → List Char → Bool
  | [], _ => true
  | _ :: _, [] => false
  | p :: ps, c :: cs => charLower p = charLower c && startsWithCI ps cs

/-- Case-sensitive "starts with". -/
def startsWithCS : List Char → List Char → Bool
  | [], _ => true
  | _ :: _, [] => false
  | p :: ps, c :: cs => p = c && startsWithCS ps cs

/-- `String.prototype.replace` with a plain (non-regex) pattern: replaces only
the first occurrence; an empty pattern matches at index 0. -/
def replaceFirstOccGo (pat rep : List Char) : List Char → List Char
  | [] => []
  | c :: rest =>
    if startsWithCS pat (c :: rest) then rep ++ (c :: rest).drop (max pat.length 1)
    else c :: replaceFirstOccGo pat rep rest

def replaceFirstOcc (s pat rep : List Char) : List Char :=
  if pat = [] then rep ++ s else replaceFirstOccGo pat rep s

/-- Global, case-insensitive, non-overlapping replacement of a literal token
(the source builds `new RegExp(escapeRegExp(token), "gi")`, so the token is
matched literally).  Fueled by the input length. -/
def replaceAllCIFuel (tok rep : List Char) : Nat → List Char → List Char
  | _, [] => []
  | 0, l => l
  | fuel + 1, c :: rest =>
    if startsWithCI tok (c :: rest) then
      rep ++ replaceAllCIFuel tok rep fuel ((c :: rest).drop (max tok.length 1))
    else c :: replaceAllCIFuel tok rep fuel rest

def replaceAllCIGo (tok rep l : List Char) : List Char :=
  replaceAllCIFuel tok rep l.length l

/-- `text.split(/\r?\n/)`. -/
def splitLinesAux (acc : List Char) : List Char → List (List Char)
  | [] => [acc.reverse]
  | '\r' :: '\n' :: rest => acc.reverse :: splitLinesAux [] rest
  | '\n' :: rest => acc.reverse :: splitLinesAux [] rest
  | c :: rest => splitLinesAux (c :: acc) rest

def splitLines (l : List Char) : List (List Char) := splitLinesAux [] l

/-- `split(/\s+/)` with JavaScript's edge behaviour: an empty piece appears
before a leading separator and after a trailing separator.  Fueled by the
input length. -/
def jsSplitWsAux (cur : List Char) : Nat → List Char → List (List Char)
  | _, [] => [cur.reverse]
  | 0, l => [cur.reverse ++ l]
  | fuel + 1, c :: rest =>
    if isSpaceJS c then
      cur.reverse :: jsSplitWsAux [] fuel (rest.dropWhile isSpaceJS)
    else jsSplitWsAux (c :: cur) fuel rest

def jsSplitWs (l : List Char) : List (List Char) := jsSplitWsAux [] l.length l

/-!
## Regex matcher combinators

A `Matcher` receives the character preceding the current position (for the
`\b` assertion) and the rest of the input, and returns the list of lengths it
may consume, ordered by the JS engine's backtracking preference (greedy
alternatives first).  A regex match at a position is the head of this list;
scanning positions left to right gives JS's leftmost-match rule.
-/

def Matcher : Type := Option Char → List Char → List Nat

/-- A single character of a class. -/
def mCls (p : Char → Bool) : Matcher := fun _ rest =>
  match rest with
  | c :: _ => if p c then [1] else []
  | [] => []

def mChar (ch : Char) : Matcher := mCls (· = ch)

/-- Sequencing, preserving backtracking order.  The character preceding the
second matcher is the last one the first consumed, if any. -/
def mSeq (a b : Matcher) : Matcher := fun prev rest =>
  (a prev rest).flatMap fun n =>
    (b (match (rest.take n).getLast? with
        | some c => some c
        | none => prev) (rest.drop n)).map (n + ·)

/-- Alternation: the left alternative is preferred. -/
def mAlt (a b : Matcher) : Matcher := fun prev rest => a prev rest ++ b prev rest

/-- `(...)?`: greedy, so trying the body first and the empty match second. -/
def mOpt (a : Matcher) : Matcher := fun prev rest => a prev rest ++ [0]

/-- Greedy unbounded class repetition `p{min,}`: lengths from the maximal run
down to `min`. -/
def mRepCls (p : Char → Bool) (min : Nat) : Matcher := fun _ rest =>
  if countRun p rest < min then []
  else (List.range (countRun p rest + 1 - min)).map (countRun p rest - ·)

/-- Greedy bounded class repetition `p{min,max}`. -/
def mRepClsB (p : Char → Bool) (min max : Nat) : Matcher := fun _ rest =>
  if Nat.min (countRun p rest) max < min then []
  else (List.range (Nat.min (countRun p rest) max + 1 - min)).map
    (Nat.min (countRun p rest) max - ·)

/-- A case-insensitive literal. -/
def mLitCI (lit : List Char) : Matcher := fun _ rest =>
  if startsWithCI lit rest then [lit.length] else []

/-- The `\b` word-boundary assertion (ASCII `\w`, as in JavaScript). -/
def mBound : Matcher := fun prev rest =>
  if isWordOpt prev ≠ (match rest with
      | c :: _ => isWordJS c
      | [] => false) then [0] else []

/-- A lookahead `(?=[class])` for a single-character class. -/
def mLookCls (p : Char → Bool) : Matcher := fun _ rest =>
  match rest with
  | c :: _ => if p c then [0] else []
  | [] => []

/-- The `$` end-of-input assertion. -/
def mEnd : Matcher := fun _ rest =>
  match rest with
  | [] => [0]
  | _ :: _ => []

/-- First match while scanning left to right, returned as the matched
substring (JS `String.match(re)[0]` for a non-global regex). -/
def scanFirst (m : Matcher) : Option Char → List Char → Option (List Char)
  | prev, [] =>
    match (m prev []).head? with
    | some n => some (([] : List Char).take n)
    | none => none
  | prev, c :: rs =>
    match (m prev (c :: rs)).head? with
    | some n => some ((c :: rs).take n)
    | none => scanFirst m (some c) rs

/-- Index of the first match (JS `match.index`). -/
def scanFirstIdx (m : Matcher) : Option Char → List Char → Nat → Option Nat
  | prev, [], i =>
    match (m prev []).head? with
    | some _ => some i
    | none => none
  | prev, c :: rs, i =>
    match (m prev (c :: rs)).head? with
    | some _ => some i
    | none => scanFirstIdx m (some c) rs (i + 1)

/-- Does the regex match anywhere (JS `re.test(s)`)? -/
def reTest (m : Matcher) (l : List Char) : Bool :=
  (scanFirst m none l).isSome

/-- All matches of a global regex (JS `String.matchAll`), leftmost,
non-overlapping, advancing by at least one position after each match.
Fueled by the input length. -/
def scanAllGo (m : Matcher) : Nat → Option Char → List Char →
    List (List Char)
  | 0, _, _ => []
  | fuel + 1, prev, [] =>
    match (m prev []).head? with
    | some n => [([] : List Char).take n]
    | none => []
  | fuel + 1, prev, c :: rs =>
    match (m prev (c :: rs)).head? with
    | some n =>
      (c :: rs).take n :: scanAllGo m fuel
        (match ((c :: rs).take (max n 1)).getLast? with
          | some d => some d
          | none => prev)
        ((c :: rs).drop (max n 1))
    | none => scanAllGo m fuel (some c) rs

def scanAll (m : Matcher) (prev : Option Char) (l : List Char) :
    List (List Char) :=
  scanAllGo m (l.length + 1) prev l

def mFail : Matcher := fun _ _ => []

/-- Alternation over a list of case-insensitive literals, in source order. -/
def mAlts (ws : List String) : Matcher :=
  ws.foldr (fun w acc => mAlt (mLitCI w.toList) acc) mFail

/-- Test an anchored (`^...$`) regex: the matcher is applied at position 0
only, and carries its own `$` assertion. -/
def reTestAt0 (m : Matcher) (l : List Char) : Bool :=
  !(m none l).isEmpty

/-!
## The source's regular expressions
-/

/-- Class of `[A-Z0-9._%+-]` under the `i` flag. -/
def isEmailLocalChar (c : Char) : Bool :=
  isAsciiLetter c || isDigitChar c || c = '.' || c = Char.ofNat 95 ||
  c = '%' || c = '+' || c = '-'

/-- Class of `[A-Z0-9.-]` under the `i` flag. -/
def isEmailDomChar (c : Char) : Bool :=
  isAsciiLetter c || isDigitChar c || c = '.' || c = '-'

/-- `/[A-Z0-9._%+-]+@[A-Z0-9.-]+\.[A-Z]{2,}/gi` (email candidates). -/
def emailRe : Matcher :=
  mSeq (mRepCls isEmailLocalChar 1)
    (mSeq (mChar '@')
      (mSeq (mRepCls isEmailDomChar 1)
        (mSeq (mChar '.') (mRepCls isAsciiLetter 2))))

/-- Class of `[\d\s().-]`. -/
def isPhoneMidChar (c : Char) : Bool :=
  isDigitChar c || isSpaceJS c || c = '(' || c = ')' || c = '.' || c = '-'

/-- `/\+?\d[\d\s().-]{6,}\d/g` (phone candidates). -/
def phoneRe : Matcher :=
  mSeq (mOpt (mChar '+'))
    (mSeq (mCls isDigitChar)
      (mSeq (mRepCls isPhoneMidChar 6) (mCls isDigitChar)))

/-- Class of `[a-z0-9.-]` under the `i` flag. -/
def isHostChar (c : Char) : Bool :=
  isAsciiLetter c || isDigitChar c || c = '.' || c = '-'

/-- `/((https?:\/\/)?(www\.)?[a-z0-9.-]+\.[a-z]{2,})(\/[^\s]*)?/i`
(first URL/domain-shaped substring). -/
def websiteRe : Matcher :=
  mSeq (mOpt (mSeq (mLitCI "http".toList)
               (mSeq (mOpt (mLitCI "s".toList)) (mLitCI "://".toList))))
    (mSeq (mOpt (mLitCI "www.".toList))
      (mSeq (mSeq (mRepCls isHostChar 1)
               (mSeq (mChar '.') (mRepCls isAsciiLetter 2)))
        (mOpt (mSeq (mChar '/') (mRepCls (fun c => !isSpaceJS c) 0)))))

/-- Class of `[a-z0-9-]` under the `i` flag. -/
def isSpacedG1Char (c : Char) : Bool :=
  isAsciiLetter c || isDigitChar c || c = '-'

/-- `/\b((?:www\.)?[a-z0-9-]{2,})\s+([a-z]{2,3})\b/i` (spaced-domain
repair candidate). -/
def spacedRe : Matcher :=
  mSeq mBound
    (mSeq (mOpt (mLitCI "www.".toList))
      (mSeq (mRepCls isSpacedG1Char 2)
        (mSeq (mRepCls isSpaceJS 1)
          (mSeq (mRepClsB isAsciiLetter 2 3) mBound))))

/-- Class of `[^\s@]`. -/
def isNotSpAt (c : Char) : Bool := !isSpaceJS c && c ≠ '@'

/-- `/^[^\s@]+@[^\s@]+\.[^\s@]+$/` (the shape test inside `isValidEmail`). -/
def emailShapeRe : Matcher :=
  mSeq (mRepCls isNotSpAt 1)
    (mSeq (mChar '@')
      (mSeq (mRepCls isNotSpAt 1)
        (mSeq (mChar '.') (mSeq (mRepCls isNotSpAt 1) mEnd))))

/-- The first alternative of `titleRe` (word-bounded English title words). -/
def titleWordsEn : List String :=
  ["ceo", "cto", "cfo", "coo", "founder", "manager", "director", "head",
   "lead", "engineer", "sales", "marketing", "product", "operations",
   "secretary", "assistant", "advisor", "officer", "president",
   "vice president"]

/-- The second alternative of `titleRe` (Russian, no word boundaries). -/
def titleWordsRu : List String :=
  ["директор", "менеджер", "инженер", "руководитель", "продажи",
   "маркетинг", "разработчик", "секретарь", "советник"]

/-- The third alternative of `titleRe` (diplomatic phrases, no bounds). -/
def titlePhrases : List String :=
  ["commercial affairs", "economic affairs", "public affairs",
   "consular affairs"]

/-- `titleRe` from `parseBusinessCardText`. -/
def titleRe : Matcher :=
  mAlt (mSeq mBound (mSeq (mAlts titleWordsEn) mBound))
    (mAlt (mAlts titleWordsRu) (mAlts titlePhrases))

def companyWordsEn : List String :=
  ["embassy", "consulate", "ministry", "department", "agency", "university",
   "institute", "bank", "group", "solutions", "studio", "company", "corp",
   "corporation", "inc", "llc", "ltd", "gmbh"]

def companyWordsRu : List String :=
  ["посольство", "консульство", "университет", "компания", "министерство"]

/-- The `s\.?a\.?` alternative of `companyRe`. -/
def saRe : Matcher :=
  mSeq (mLitCI "s".toList)
    (mSeq (mOpt (mChar '.'))
      (mSeq (mLitCI "a".toList) (mOpt (mChar '.'))))

/-- `companyRe` from `parseBusinessCardText`. -/
def companyRe : Matcher :=
  mAlt (mSeq mBound (mSeq (mAlt (mAlts companyWordsEn) saRe) mBound))
    (mAlts companyWordsRu)

def addrWordsA : List String :=
  ["street", "st.", "avenue", "ave.", "road", "rd.", "boulevard", "blvd",
   "lane", "ln.", "drive", "dr.", "suite", "ste.", "office", "building",
   "floor", "city", "state", "zip", "postal"]

def addrWordsB : List String :=
  ["box", "ул.", "улица", "просп", "дом", "офис", "ashgabat", "turkmenistan"]

/-- The `p\.?o\.?\s*box` alternative of `addressRe`. -/
def poBoxRe : Matcher :=
  mSeq (mLitCI "p".toList)
    (mSeq (mOpt (mChar '.'))
      (mSeq (mLitCI "o".toList)
        (mSeq (mOpt (mChar '.'))
          (mSeq (mRepCls isSpaceJS 0) (mLitCI "box".toList)))))

/-- `addressRe` from `parseBusinessCardText`. -/
def addressRe : Matcher :=
  mSeq mBound
    (mSeq (mAlt (mAlts addrWordsA) (mAlt poBoxRe (mAlts addrWordsB))) mBound)

/-- The anchor-keyword regex of `extractTitleFromSegment`. -/
def anchorRe : Matcher :=
  mSeq mBound
    (mSeq (mAlts
      ["second", "first", "third", "deputy", "assistant", "chief", "senior",
       "junior", "lead", "principal", "secretary", "director", "manager",
       "engineer", "advisor", "officer", "commercial", "economic", "public",
       "consular", "affairs"]) mBound)

/-- The organisation-penalty regex inside `extractBestNameCandidate`. -/
def bigOrgRe : Matcher :=
  mSeq mBound
    (mSeq (mAlts
      ["embassy", "consulate", "ministry", "department", "agency", "company",
       "corp", "inc", "llc", "ltd"]) mBound)

/-- Class of `[a-zа-яё'-]` (lowercase part of a name word). -/
def isNameLowerChar (c : Char) : Bool :=
  isLowerLet c || c = Char.ofNat 39 || c = '-'

/-- One capitalized name word `[A-ZА-ЯЁ][a-zа-яё'-]{2,}` of `nameRegex`. -/
def nameWordRe : Matcher :=
  mSeq (mCls isUpperLet) (mRepCls isNameLowerChar 2)

/-- `nameRegex` from `extractNameCandidates`
(`/\b(W)\s+(W)(?:\s+(W))?\b/gu` with `W` a capitalized word). -/
def nameRe : Matcher :=
  mSeq mBound
    (mSeq nameWordRe
      (mSeq (mRepCls isSpaceJS 1)
        (mSeq nameWordRe
          (mSeq (mOpt (mSeq (mRepCls isSpaceJS 1) nameWordRe)) mBound))))

/-- Class of `[\p{L} .'-]` restricted to Latin/Cyrillic letters. -/
def isAddrNameChar (c : Char) : Bool :=
  isAnyLetter c || c = ' ' || c = '.' || c = Char.ofNat 39 || c = '-'

/-- `/^[\p{L} .'-]+,\s*[\p{L} .'-]+$/u` (the two-clause shape inside
`looksLikeAddress`). -/
def commaShapeRe : Matcher :=
  mSeq (mRepCls isAddrNameChar 1)
    (mSeq (mChar ',')
      (mSeq (mRepCls isSpaceJS 0)
        (mSeq (mRepCls isAddrNameChar 1) mEnd)))

/-!
## The source's helper functions
-/

/-- `pickFirstMatch`: first match of `re` in `text`, trimmed, else `""`. -/
def pickFirstMatch (text : List Char) (re : Matcher) : List Char :=
  match scanFirst re none text with
  | some m => jsTrim m
  | none => []

/-- The leading-junk class `[|¦:;,_~`'"./\\\-\s]` of `sanitizeOcrLine`
(pipe, broken bar, punctuation, quotes, slashes, hyphen, whitespace). -/
def isLeadJunk (c : Char) : Bool :=
  c = '|' || c = Char.ofNat 0xa6 || c = ':' || c = ';' || c = ',' ||
  c = Char.ofNat 95 || c = '~' || c = Char.ofNat 96 || c = Char.ofNat 39 ||
  c = Char.ofNat 34 || c = '.' || c = '/' || c = Char.ofNat 92 || c = '-' ||
  isSpaceJS c

def isPipeChar (c : Char) : Bool := c = '|' || c = Char.ofNat 0xa6

/-- `replace(/[|¦]+/g, " ")`: each run of pipes becomes one space.  Fueled
by the input length. -/
def replacePipeRunsGo : Nat → List Char → List Char
  | _, [] => []
  | 0, l => l
  | fuel + 1, c :: rest =>
    if isPipeChar c then
      ' ' :: replacePipeRunsGo fuel (rest.dropWhile isPipeChar)
    else c :: replacePipeRunsGo fuel rest

def replacePipeRuns (l : List Char) : List Char :=
  replacePipeRunsGo l.length l

/-- `sanitizeOcrLine` from the source. -/
def sanitizeOcrLine (line : List Char) : List Char :=
  jsTrim (collapseMulti (replacePipeRuns
    ((normalizeLine line).dropWhile isLeadJunk)))

/-- `dedupeBy`: keep the first item per non-empty key. -/
def dedupeByAux (keyFn : List Char → List Char) (seen : List (List Char)) :
    List (List Char) → List (List Char)
  | [] => []
  | x :: rest =>
    let k := keyFn x
    if k = [] || seen.contains k then dedupeByAux keyFn seen rest
    else x :: dedupeByAux keyFn (k :: seen) rest

def dedupeBy (items : List (List Char)) (keyFn : List Char → List Char) :
    List (List Char) :=
  dedupeByAux keyFn [] items

/-- The edge-punctuation class `[,;:\- ]` stripped from field boundaries. -/
def isEdgePunct (c : Char) : Bool :=
  c = ',' || c = ';' || c = ':' || c = '-' || c = ' '

/-- `replace(/^[,;:\- ]+|[,;:\- ]+$/g, "")`. -/
def dropEdgePunct (l : List Char) : List Char :=
  ((l.dropWhile isEdgePunct).reverse.dropWhile isEdgePunct).reverse

/-- `stripContactTokens`: globally replace each non-empty token
(case-insensitively) with a space, then sanitize and strip edges. -/
def stripContactTokens (line : List Char) (tokens : List (List Char)) :
    List Char :=
  let out := tokens.foldl
    (fun acc t => if t = [] then acc else replaceAllCIGo t [' '] acc) line
  jsTrim (dropEdgePunct (sanitizeOcrLine out))

/-- Deduplication of exact strings, keeping first occurrences. -/
def dedupeExactAux (seen : List (List Char)) :
    List (List Char) → List (List Char)
  | [] => []
  | x :: rest =>
    if seen.contains x then dedupeExactAux seen rest
    else x :: dedupeExactAux (x :: seen) rest

/-- `uniqueStrings`: trim, drop empties, dedupe preserving order. -/
def uniqueStrings (values : List (List Char)) : List (List Char) :=
  dedupeExactAux [] ((values.map jsTrim).filter (· ≠ []))

/-- `NAME_STOPWORDS` from the source (already lowercase). -/
def nameStopwords : List String :=
  ["second", "first", "third", "secretary", "economic", "commercial",
   "affairs", "embassy", "consulate", "department", "ministry", "office",
   "street", "ashgabat", "turkmenistan"]

/-- Strip `^[^A-Za-zА-Яа-яЁё]+` and `[^A-Za-zА-Яа-яЁё'-]+$` from a token. -/
def stripWordEdges (w : List Char) : List Char :=
  ((w.dropWhile (fun c => !isAnyLetter c)).reverse.dropWhile
    (fun c => !(isAnyLetter c || c = Char.ofNat 39 || c = '-'))).reverse

/-- `tokenizeWords` from the source. -/
def tokenizeWords (line : List Char) : List (List Char) :=
  ((jsSplitWs line).map stripWordEdges).filter (· ≠ [])

/-- `isTitleCaseWord`: `/^\p{Lu}[\p{Ll}'-]{1,}$/u` (Latin/Cyrillic). -/
def isTitleCaseWord (token : List Char) : Bool :=
  match token with
  | c :: rest =>
    isUpperLet c && !rest.isEmpty &&
      rest.all (fun d => isLowerLet d || d = Char.ofNat 39 || d = '-')
  | [] => false

/-- `isUpperWord`: `/^\p{Lu}{2,}$/u` (Latin/Cyrillic). -/
def isUpperWord (token : List Char) : Bool :=
  2 ≤ token.length && token.all isUpperLet

/-- Try to strip `^[A-Za-z]{1,2}\s*:\s*` with exactly `n` leading letters. -/
def tryNoiseColon (n : Nat) (s : List Char) : Option (List Char) :=
  let letters := s.take n
  if letters.length = n && letters.all isAsciiLetter then
    let rest := (s.drop n).dropWhile isSpaceJS
    match rest with
    | ':' :: r2 => some (r2.dropWhile isSpaceJS)
    | _ => none
  else none

/-- Try to strip `^[A-Za-z]{1,2}\s+(?=[A-ZА-ЯЁ])` with `n` leading letters. -/
def tryNoiseCap (n : Nat) (s : List Char) : Option (List Char) :=
  let letters := s.take n
  if letters.length = n && letters.all isAsciiLetter then
    let rest := s.drop n
    let k := countRun isSpaceJS rest
    if 1 ≤ k then
      match rest.drop k with
      | c :: r2 => if isUpperLet c then some (c :: r2) else none
      | [] => none
    else none
  else none

/-- `replace(/\b[|¦]\b/g, " ")`: a pipe flanked by word characters. -/
def replaceLonePipe : Option Char → List Char → List Char
  | _, [] => []
  | prev, c :: rest =>
    if isPipeChar c && isWordOpt prev &&
        (match rest with | d :: _ => isWordJS d | [] => false) then
      ' ' :: replaceLonePipe (some c) rest
    else c :: replaceLonePipe (some c) rest

/-- `cleanSemanticLine` from the source. -/
def cleanSemanticLine (line : List Char) : List Char :=
  let s := sanitizeOcrLine line
  let s := match tryNoiseColon 2 s with
    | some r => r
    | none => match tryNoiseColon 1 s with
      | some r => r
      | none => s
  let s := match tryNoiseCap 2 s with
    | some r => r
    | none => match tryNoiseCap 1 s with
      | some r => r
      | none => s
  jsTrim (collapseMulti (replaceLonePipe none s))

/-- `replace(/\b[ai]\s+(?=[A-ZА-ЯЁ])/g, "")`: a stray lowercase `a`/`i`
word before a capitalized word is dropped along with its whitespace.
Fueled by the input length. -/
def removeArtifactAIGo : Nat → Option Char → List Char → List Char
  | _, _, [] => []
  | 0, _, l => l
  | fuel + 1, prev, c :: rest =>
    if !isWordOpt prev && (c = 'a' || c = 'i') then
      let k := countRun isSpaceJS rest
      if 1 ≤ k &&
          (match rest.drop k with | d :: _ => isUpperLet d | [] => false) then
        removeArtifactAIGo fuel ((rest.take k).getLast?) (rest.drop k)
      else c :: removeArtifactAIGo fuel (some c) rest
    else c :: removeArtifactAIGo fuel (some c) rest

def removeArtifactAI (prev : Option Char) (l : List Char) : List Char :=
  removeArtifactAIGo l.length prev l

/-- `replace(/\bBoy\s+(?=\d)/gi, "")`: a stray `Boy` token before a digit.
Fueled by the input length. -/
def removeArtifactBoyGo : Nat → Option Char → List Char → List Char
  | _, _, [] => []
  | 0, _, l => l
  | fuel + 1, prev, c :: rest =>
    if !isWordOpt prev && startsWithCI "boy".toList (c :: rest) then
      let after := (c :: rest).drop 3
      let k := countRun isSpaceJS after
      if 1 ≤ k &&
          (match after.drop k with | d :: _ => isDigitChar d | [] => false)
      then removeArtifactBoyGo fuel ((after.take k).getLast?) (after.drop k)
      else c :: removeArtifactBoyGo fuel (some c) rest
    else c :: removeArtifactBoyGo fuel (some c) rest

def removeArtifactBoy (prev : Option Char) (l : List Char) : List Char :=
  removeArtifactBoyGo l.length prev l

/-- `cleanupFieldText` from the source. -/
def cleanupFieldText (value : List Char) : List Char :=
  jsTrim (collapseMulti (removeArtifactBoy none (removeArtifactAI none
    (dropEdgePunct (sanitizeOcrLine value)))))

/-- `isValidEmail`: the anchored shape regex applied to the trimmed string. -/
def isValidEmail (email : List Char) : Bool :=
  reTestAt0 emailShapeRe (jsTrim email)

/-- `replace(/(?:\s+\d){1,2}$/, "")`: strip up to two trailing isolated
digits (each preceded by whitespace). -/
def stripTrailingIsolatedDigits (v : List Char) : List Char :=
  match v.reverse with
  | d :: rest =>
    if isDigitChar d &&
        (match rest with | s :: _ => isSpaceJS s | [] => false) then
      let r1 := rest.dropWhile isSpaceJS
      match r1 with
      | d2 :: rest2 =>
        if isDigitChar d2 &&
            (match rest2 with | s :: _ => isSpaceJS s | [] => false) then
          (rest2.dropWhile isSpaceJS).reverse
        else r1.reverse
      | [] => r1.reverse
    else v
  | [] => v

/-- `cleanPhoneCandidate` from the source. -/
def cleanPhoneCandidate (phone : List Char) : List Char :=
  let v := jsTrim (stripTrailingIsolatedDigits (normalizeLine phone))
  let digits := v.filter isDigitChar
  if digits.length < 7 || 20 < digits.length then [] else v

/-- `l.split(/\s*,\s*/g)`: split on commas with adjacent whitespace.
Fueled by the input length. -/
def splitCommaWsAux : Nat → List Char → List Char → List (List Char)
  | _, cur, [] => [cur.reverse]
  | 0, cur, l => [cur.reverse ++ l]
  | fuel + 1, cur, c :: rest =>
    match (c :: rest).dropWhile isSpaceJS with
    | ',' :: r1 => cur.reverse :: splitCommaWsAux fuel [] (r1.dropWhile isSpaceJS)
    | _ => splitCommaWsAux fuel (c :: cur) rest

def splitCommaWs (l : List Char) : List (List Char) :=
  splitCommaWsAux l.length [] l

/-!
## Field-classification predicates and name extraction
-/

def looksLikeTitle (l : List Char) : Bool := reTest titleRe l

def looksLikeCompany (l : List Char) : Bool := reTest companyRe l

/-- `looksLikeAddress` from `parseBusinessCardText`. -/
def looksLikeAddress (l : List Char) : Bool :=
  if l.contains '@' then false
  else if reTest addressRe l then true
  else if l.any isDigitChar && l.any isAnyLetter then true
  else reTestAt0 commaShapeRe l

/-- Token shape `/^[A-ZА-ЯЁ][\p{L}'-]+$/u` inside `looksLikeName`
(`\p{L}` restricted to Latin/Cyrillic). -/
def nameTokenShape (t : List Char) : Bool :=
  match t with
  | c :: rest =>
    isUpperLet c && !rest.isEmpty &&
      rest.all (fun d => isAnyLetter d || d = Char.ofNat 39 || d = '-')
  | [] => false

/-- `looksLikeName` from `parseBusinessCardText`. -/
def looksLikeName (l : List Char) : Bool :=
  let v := jsTrim l
  if v.length < 4 || 56 < v.length then false
  else if v.any (fun c => isDigitChar c || c = '@') then false
  else if looksLikeTitle v || looksLikeCompany v || reTest addressRe v then
    false
  else
    let tokens := tokenizeWords v
    if tokens.length < 2 || 4 < tokens.length then false
    else tokens.all nameTokenShape

/-- `looksLikePersonishLine` from `parseBusinessCardText`. -/
def looksLikePersonishLine (l : List Char) : Bool :=
  let words := tokenizeWords l
  if words.length < 2 || 5 < words.length then false
  else 2 ≤ (words.filter isTitleCaseWord).length

/-- `extractTitleFromSegment` from the source. -/
def extractTitleFromSegment (segment : List Char) : List Char :=
  let s := cleanupFieldText segment
  if s = [] then []
  else
    match scanFirstIdx anchorRe none s 0 with
    | none => s
    | some i => cleanupFieldText (s.drop i)

/-- `extractNameCandidates` from the source. -/
def extractNameCandidates (lines : List (List Char)) : List (List Char) :=
  uniqueStrings (lines.flatMap fun line =>
    (scanAll nameRe none line).filterMap fun m0 =>
      let candidate := sanitizeOcrLine m0
      if candidate = [] then none
      else
        let words := tokenizeWords candidate
        if words.length < 2 || 3 < words.length then none
        else if words.any (fun w =>
            (nameStopwords.map String.toList).contains (lowerStr w)) then
          none
        else some candidate)

/-- One scored sliding-window candidate of `extractBestNameCandidate`. -/
structure NameCand where
  value : List Char
  score : Int

/-- The candidates a single line contributes in `extractBestNameCandidate`,
in the source's loop order (window start outer, window length 2 then 3). -/
def nameCandsOfLine (isTitleLine isAddressLine : List Char → Bool)
    (line : List Char) : List NameCand :=
  if isAddressLine line then []
  else
    let words := tokenizeWords line
    if words.length < 2 then []
    else
      (List.range words.length).flatMap fun i =>
        [2, 3].filterMap fun len =>
          let slice := (words.drop i).take len
          if slice.length < 2 then none
          else if !slice.all (fun w => isTitleCaseWord w || isUpperWord w)
          then none
          else
            let value := List.intercalate [' '] slice
            let score : Int := 10 + 8 * (slice.length : Int)
              + 3 * ((slice.filter isTitleCaseWord).length : Int)
              - (if isTitleLine line then 12 else 0)
              - (if reTest bigOrgRe line then 12 else 0)
              - (if line.any (fun c => isDigitChar c || c = '@') then 8
                 else 0)
              - (if value.length < 6 then 6 else 0)
            some ⟨value, score⟩

/-- Head of the stable sort by score (then value length) descending: the
first candidate with maximal score, longest value breaking score ties. -/
def pickBestCand : List NameCand → List Char
  | [] => []
  | c :: rest =>
    (rest.foldl (fun best x =>
      if best.score < x.score ||
          (x.score = best.score && best.value.length < x.value.length)
      then x else best) c).value

/-- `extractBestNameCandidate` from the source. -/
def extractBestNameCandidate (lines : List (List Char))
    (isTitleLine isAddressLine : List Char → Bool) : List Char :=
  pickBestCand (lines.flatMap (nameCandsOfLine isTitleLine isAddressLine))

/-!
## `parseBusinessCardText`, decomposed into the source's local constants

Each definition below mirrors one `const` binding in the body of
`parseBusinessCardText`, parameterized by the recognized text.
-/

/-- `lines`: split on `/\r?\n/`, sanitize, drop empties. -/
def linesOf (text : List Char) : List (List Char) :=
  ((splitLines text).map sanitizeOcrLine).filter (· ≠ [])

/-- `joined`: the sanitized lines joined with a newline. -/
def joinedOf (text : List Char) : List Char :=
  List.intercalate ['\n'] (linesOf text)

/-- `emails`: all email-shaped matches, deduplicated by lowercase. -/
def emailsOf (text : List Char) : List (List Char) :=
  dedupeBy ((scanAll emailRe none (joinedOf text)).map jsTrim) lowerStr

/-- `email`: the first email candidate or `""`. -/
def emailOf (text : List Char) : List Char := (emailsOf text).headD []

/-- `phones`: raw phone-shaped matches, deduplicated by the digits-and-plus
key of their cleaned form. -/
def phonesOf (text : List Char) : List (List Char) :=
  dedupeBy ((scanAll phoneRe none (joinedOf text)).map jsTrim)
    (fun v => (cleanPhoneCandidate v).filter
      (fun c => isDigitChar c || c = '+'))

/-- `cleanPhones`: cleaned candidates that survived validation. -/
def cleanPhonesOf (text : List Char) : List (List Char) :=
  ((phonesOf text).map cleanPhoneCandidate).filter (· ≠ [])

/-- `phone`: the first clean phone candidate or `""`. -/
def phoneOf (text : List Char) : List Char := (cleanPhonesOf text).headD []

/-- `joined.replace(email, " ")`: the search text for website candidates
(JS replaces the first occurrence; an empty pattern inserts at index 0). -/
def websiteSrcOf (text : List Char) : List Char :=
  replaceFirstOcc (joinedOf text) (emailOf text) [' ']

/-- `websiteRaw` from the source. -/
def websiteRawOf (text : List Char) : List Char :=
  pickFirstMatch (websiteSrcOf text) websiteRe

/-- `spacedWebsite` from the source. -/
def spacedWebsiteOf (text : List Char) : List Char :=
  pickFirstMatch (websiteSrcOf text) spacedRe

/-- `spacedWebsite.replace(/\s+/, ".")`: only the first whitespace run is
replaced by a dot. -/
def replaceFirstWsRun : List Char → List Char
  | [] => []
  | c :: rest =>
    if isSpaceJS c then '.' :: rest.dropWhile isSpaceJS
    else c :: replaceFirstWsRun rest

/-- `spacedWebsiteFixed` from the source. -/
def spacedWebsiteFixedOf (text : List Char) : List Char :=
  if spacedWebsiteOf text ≠ [] then replaceFirstWsRun (spacedWebsiteOf text)
  else []

/-- `website`: the raw match unless absent or containing `@`, else the
spaced-domain repair. -/
def websiteOf (text : List Char) : List Char :=
  let wr := websiteRawOf text
  if wr ≠ [] ∧ ¬wr.contains '@' then wr else spacedWebsiteFixedOf text

/-- `contactTokens`: emails, clean phones, and the website if non-empty. -/
def contactTokensOf (text : List Char) : List (List Char) :=
  emailsOf text ++ cleanPhonesOf text ++
    (if websiteOf text ≠ [] then [websiteOf text] else [])

/-- `nonContactLines`: lines with contact tokens stripped, semantically
cleaned, empties dropped. -/
def nonContactLinesOf (text : List Char) : List (List Char) :=
  (((linesOf text).map (fun l => stripContactTokens l (contactTokensOf text))).map
    cleanSemanticLine).filter (· ≠ [])

/-- `heuristicName` from the source. -/
def heuristicNameOf (text : List Char) : List Char :=
  ((nonContactLinesOf text).find? looksLikeName).getD []

/-- `extractedName` from the source. -/
def extractedNameOf (text : List Char) : List Char :=
  match extractNameCandidates (nonContactLinesOf text) with
  | c :: _ => c
  | [] => extractBestNameCandidate (nonContactLinesOf text)
      looksLikeTitle looksLikeAddress

/-- `name` from the source. -/
def nameOf (text : List Char) : List Char :=
  if extractedNameOf text ≠ [] then extractedNameOf text
  else heuristicNameOf text

/-- `remaining`: the non-contact lines with the chosen name stripped. -/
def remainingOf (text : List Char) : List (List Char) :=
  ((nonContactLinesOf text).map (fun l =>
    if nameOf text ≠ [] then stripContactTokens l [nameOf text] else l)).filter
    (· ≠ [])

/-- `splitSegments`: remaining lines split on commas and cleaned. -/
def splitSegmentsOf (text : List Char) : List (List Char) :=
  (((remainingOf text).flatMap splitCommaWs).map cleanSemanticLine).filter
    (· ≠ [])

/-- `titleLines` from the source. -/
def titleLinesOf (text : List Char) : List (List Char) :=
  uniqueStrings ((((splitSegmentsOf text).filter (fun l =>
    looksLikeTitle l && !looksLikeAddress l)).map
      extractTitleFromSegment).filter (· ≠ []))

/-- `title`: up to three title segments joined with `", "`. -/
def titleOf (text : List Char) : List Char :=
  List.intercalate [',', ' '] ((titleLinesOf text).take 3)

/-- `remaining2` from the source. -/
def remaining2Of (text : List Char) : List (List Char) :=
  uniqueStrings ((splitSegmentsOf text).filter (fun l =>
    !(titleLinesOf text).contains l))

/-- `company` from the source. -/
def companyOf (text : List Char) : List Char :=
  match (remaining2Of text).find? (fun l =>
      looksLikeCompany l && !looksLikeAddress l) with
  | some c => c
  | none =>
    ((remaining2Of text).find? (fun l =>
      l.length ≤ 64 && !looksLikeAddress l && !looksLikeTitle l &&
        !looksLikePersonishLine l)).getD []

/-- `remaining3` from the source. -/
def remaining3Of (text : List Char) : List (List Char) :=
  (remaining2Of text).filter (· ≠ companyOf text)

/-- `address` from the source. -/
def addressOf (text : List Char) : List Char :=
  let addressLines := (remaining3Of text).filter looksLikeAddress
  let fallbackAddressLines := (remaining3Of text).filter
    (fun l => !looksLikeTitle l)
  cleanupFieldText (jsTrim (List.intercalate [',', ' ']
    (if addressLines ≠ [] then addressLines else fallbackAddressLines)))

/-- `Omit<BusinessCard, "id">`: the draft record the parser returns. -/
structure CardDraft where
  name : String
  title : String
  company : String
  email : String
  phone : String
  website : String
  address : String
deriving Repr, DecidableEq

/-- `parseBusinessCardText` from the source: assembles the final record. -/
def parseBusinessCardText (text : String) : CardDraft :=
  { name := String.mk (cleanupFieldText (nameOf text.data))
    title := String.mk (cleanupFieldText (titleOf text.data))
    company := String.mk (cleanupFieldText (companyOf text.data))
    email := if isValidEmail (emailOf text.data) then
        String.mk (emailOf text.data)
      else ""
    phone := String.mk (cleanPhoneCandidate (phoneOf text.data))
    website := String.mk (websiteOf text.data)
    address := String.mk (addressOf text.data) }

/-- `scoreParsedCard` from the source. -/
def scoreParsedCard (card : CardDraft) : Nat :=
  (if card.name = "" then 0 else 45) +
  (if card.company = "" then 0 else 30) +
  (if card.title = "" then 0 else 20) +
  (if card.email ≠ "" ∧ isValidEmail card.email.data then 40 else 0) +
  (if card.phone = "" then 0 else 30) +
  (if card.website = "" then 0 else 15) +
  (if card.address = "" then 0 else 20) +
  (if card.name ≠ "" ∧ 2 ≤ (jsSplitWs card.name.data).length then 10
   else 0) +
  (if 20 < card.address.data.length then 8 else 0)

/-!
## `extractCardDataOnDeviceOcr`, modelled over a pass oracle

The orchestrator runs recognition passes sequentially.  `o n` is the outcome
of the `n`-th attempted pass (pass 0: the original image; pass 1: the
contrast-enhanced preprocessing pipeline plus recognition, whose failure the
source swallows with a `catch`).  The result pairs the outcome with the
number of passes attempted.
-/

def extractCardRun (o : Nat → Except String String) :
    Except String CardDraft × Nat :=
  match o 0 with
  | .error e => (.error e, 1)
  | .ok t0 =>
    let p0 := parseBusinessCardText t0
    match o 1 with
    | .error _ => (.ok p0, 2)
    | .ok t1 =>
      let p1 := parseBusinessCardText t1
      (.ok (if scoreParsedCard p0 < scoreParsedCard p1 then p1 else p0), 2)

/-!
## Auxiliary notions used only by the statements of the theorems
-/

/-- Substring containment over code points. -/
def containsSub : List Char → List Char → Bool
  | _, [] => true
  | [], _ :: _ => false
  | c :: rest, sub =>
    startsWithCS sub (c :: rest) || containsSub rest sub

/-- Replace each maximal whitespace run by a single dot.  Fueled by the
input length. -/
def joinWsWithDotsGo : Nat → List Char → List Char
  | _, [] => []
  | 0, l => l
  | fuel + 1, c :: rest =>
    if isSpaceJS c then '.' :: joinWsWithDotsGo fuel (rest.dropWhile isSpaceJS)
    else c :: joinWsWithDotsGo fuel rest

def joinWsWithDots (l : List Char) : List Char :=
  joinWsWithDotsGo l.length l

/-- Modelled from the spec's words (for the refinement comparison of the
website field): "normalize by lower-casing, joining internal whitespace
with `.`, stripping a leading scheme/`www.`".  The source has no such
normalization step; this definition exists to compare the two. -/
def specNormalizeWebsite (s : List Char) : List Char :=
  let s := joinWsWithDots (lowerStr s)
  let s :=
    if startsWithCS "http://".toList s then s.drop 7
    else if startsWithCS "https://".toList s then s.drop 8
    else s
  if startsWithCS "www.".toList s then s.drop 4 else s

/-- The all-empty draft record. -/
def emptyCard : CardDraft :=
  { name := "", title := "", company := "", email := "", phone := "",
    website := "", address := "" }

/-!
## Supporting lemmas
-/

theorem mem_dropWhile_sub {p : Char → Bool} {c : Char} :
    ∀ {l : List Char}, c ∈ l.dropWhile p → c ∈ l := by
  intro l
  induction l with
  | nil => simp [List.dropWhile]
  | cons d rest ih =>
    simp only [List.dropWhile]
    split
    · intro h
      exact List.mem_cons_of_mem d (ih h)
    · exact id

theorem dropWhile_idem (p : Char → Bool) (l : List Char) :
    (l.dropWhile p).dropWhile p = l.dropWhile p := by
  induction l with
  | nil => simp [List.dropWhile]
  | cons c rest ih =>
    simp only [List.dropWhile]
    split
    · exact ih
    · simp_all [List.dropWhile]

theorem dropWhile_append_singleton (p : Char → Bool) (c : Char)
    (hc : p c = false) (ys : List Char) :
    (ys ++ [c]).dropWhile p = ys.dropWhile p ++ [c] := by
  induction ys with
  | nil => simp [List.dropWhile, hc]
  | cons y ys' ih =>
    simp only [List.cons_append, List.dropWhile]
    split
    · exact ih
    · simp

theorem dropWhile_shape (p : Char → Bool) (l : List Char) :
    l.dropWhile p = [] ∨
      ∃ c rest, l.dropWhile p = c :: rest ∧ p c = false := by
  induction l with
  | nil => simp [List.dropWhile]
  | cons c rest ih =>
    simp only [List.dropWhile]
    split
    · exact ih
    · exact Or.inr ⟨c, rest, rfl, by simp_all⟩

theorem jsTrim_mem_sub {c : Char} {l : List Char} (h : c ∈ jsTrim l) :
    c ∈ l := by
  unfold jsTrim at h
  rw [List.mem_reverse] at h
  have h1 := mem_dropWhile_sub h
  rw [List.mem_reverse] at h1
  exact mem_dropWhile_sub h1

theorem jsTrim_idem (l : List Char) : jsTrim (jsTrim l) = jsTrim l := by
  unfold jsTrim
  rcases dropWhile_shape isSpaceJS l with h | ⟨c, rest, h, hc⟩
  · rw [h]
    rfl
  · rw [h]
    have h2 : (c :: rest).reverse.dropWhile isSpaceJS =
        rest.reverse.dropWhile isSpaceJS ++ [c] := by
      rw [List.reverse_cons]
      exact dropWhile_append_singleton isSpaceJS c hc rest.reverse
    rw [h2, List.reverse_append]
    simp only [List.reverse_singleton, List.singleton_append]
    have h3 : (c :: (rest.reverse.dropWhile isSpaceJS).reverse).dropWhile
        isSpaceJS = c :: (rest.reverse.dropWhile isSpaceJS).reverse := by
      simp [List.dropWhile, hc]
    rw [h3, List.reverse_cons, dropWhile_append_singleton isSpaceJS c hc,
      List.reverse_append, List.reverse_reverse, dropWhile_idem]
    simp

theorem countRun_take {p : Char → Bool} :
    ∀ {l : List Char} {n : Nat}, n ≤ countRun p l →
      ∀ c ∈ l.take n, p c = true := by
  intro l
  induction l with
  | nil => simp
  | cons d rest ih =>
    intro n hn c hc
    simp only [countRun] at hn
    by_cases hd : p d = true
    · simp only [hd, if_pos] at hn
      match n, hc with
      | Nat.succ m, hc =>
        simp only [List.take] at hc
        rcases List.mem_cons.mp hc with rfl | hc'
        · exact hd
        · exact ih (Nat.le_of_succ_le_succ hn) c hc'
    · simp only [hd] at hn
      simp at hn
      subst hn
      simp at hc

/-!
## Characters consumed by a matcher

`MPred m P` says that every character a matcher consumes satisfies `P`.
This is compositional over the combinators and lets us bound the alphabet
of any match a scan returns.
-/

def MPred (m : Matcher) (P : Char → Prop) : Prop :=
  ∀ prev rest n, n ∈ m prev rest → ∀ c ∈ rest.take n, P c

theorem mpred_cls {p : Char → Bool} {P : Char → Prop}
    (h : ∀ c, p c = true → P c) : MPred (mCls p) P := by
  intro prev rest n hn c hc
  cases rest with
  | nil => simp [mCls] at hn
  | cons d rs =>
    simp only [mCls] at hn
    by_cases hp : p d = true
    · rw [if_pos hp] at hn
      simp at hn
      subst hn
      simp only [List.take, List.take_zero] at hc
      rcases List.mem_cons.mp hc with rfl | hc'
      · exact h c hp
      · simp at hc'
    · rw [if_neg hp] at hn
      simp at hn

theorem mpred_fail {P : Char → Prop} : MPred mFail P := by
  intro prev rest n hn
  simp [mFail] at hn

theorem mpred_alt {a b : Matcher} {P : Char → Prop}
    (ha : MPred a P) (hb : MPred b P) : MPred (mAlt a b) P := by
  intro prev rest n hn
  unfold mAlt at hn
  rcases List.mem_append.mp hn with h | h
  · exact ha prev rest n h
  · exact hb prev rest n h

theorem mpred_opt {a : Matcher} {P : Char → Prop}
    (ha : MPred a P) : MPred (mOpt a) P := by
  intro prev rest n hn
  unfold mOpt at hn
  rcases List.mem_append.mp hn with h | h
  · exact ha prev rest n h
  · simp at h
    subst h
    simp

theorem mpred_seq {a b : Matcher} {P : Char → Prop}
    (ha : MPred a P) (hb : MPred b P) : MPred (mSeq a b) P := by
  intro prev rest n hn c hc
  unfold mSeq at hn
  rcases List.mem_flatMap.mp hn with ⟨n1, hn1, hmap⟩
  rcases List.mem_map.mp hmap with ⟨n2, hn2, rfl⟩
  rw [List.take_add] at hc
  rcases List.mem_append.mp hc with h | h
  · exact ha prev rest n1 hn1 c h
  · exact hb _ (rest.drop n1) n2 hn2 c h

theorem mpred_repCls {p : Char → Bool} {P : Char → Prop} {min : Nat}
    (h : ∀ c, p c = true → P c) : MPred (mRepCls p min) P := by
  intro prev rest n hn c hc
  unfold mRepCls at hn
  split at hn
  · simp at hn
  · rcases List.mem_map.mp hn with ⟨i, _, rfl⟩
    exact h c (countRun_take (Nat.sub_le _ _) c hc)

theorem mpred_repClsB {p : Char → Bool} {P : Char → Prop} {min max : Nat}
    (h : ∀ c, p c = true → P c) : MPred (mRepClsB p min max) P := by
  intro prev rest n hn c hc
  unfold mRepClsB at hn
  split at hn
  · simp at hn
  · rcases List.mem_map.mp hn with ⟨i, _, rfl⟩
    have hle : Nat.min (countRun p rest) max - i ≤ countRun p rest :=
      Nat.le_trans (Nat.sub_le _ _) (Nat.min_le_left _ _)
    exact h c (countRun_take hle c hc)

theorem startsWithCI_lower_mem :
    ∀ (lit rest : List Char), startsWithCI lit rest = true →
      ∀ c ∈ rest.take lit.length, charLower c ∈ lit.map charLower := by
  intro lit
  induction lit with
  | nil => simp
  | cons p ps ih =>
    intro rest h c hc
    match rest, h with
    | d :: rs, h =>
      simp only [startsWithCI, Bool.and_eq_true] at h
      simp only [List.length_cons, List.take_succ_cons] at hc
      rcases List.mem_cons.mp hc with rfl | hc'
      · rw [← (by simpa using h.1 : charLower p = charLower c)]
        simp
      · exact List.mem_cons_of_mem _ (ih rs h.2 c hc')

theorem mpred_litCI {lit : List Char} {P : Char → Prop}
    (h : ∀ c, charLower c ∈ lit.map charLower → P c) :
    MPred (mLitCI lit) P := by
  intro prev rest n hn c hc
  unfold mLitCI at hn
  split at hn
  · simp at hn
    subst hn
    exact h c (startsWithCI_lower_mem lit rest (by assumption) c hc)
  · simp at hn

theorem mpred_bound {P : Char → Prop} : MPred mBound P := by
  intro prev rest n hn
  unfold mBound at hn
  split at hn
  · simp at hn
    subst hn
    simp
  · simp at hn

theorem mpred_lookCls {p : Char → Bool} {P : Char → Prop} :
    MPred (mLookCls p) P := by
  intro prev rest n hn
  cases rest with
  | nil => simp [mLookCls] at hn
  | cons d rs =>
    simp only [mLookCls] at hn
    by_cases hp : p d = true
    · rw [if_pos hp] at hn
      simp at hn
      subst hn
      simp
    · rw [if_neg hp] at hn
      simp at hn

theorem mpred_end {P : Char → Prop} : MPred mEnd P := by
  intro prev rest n hn
  unfold mEnd at hn
  match rest, hn with
  | [], hn =>
    simp at hn
    subst hn
    simp
  | _ :: _, hn => simp at hn

theorem mpred_alts {ws : List String} {P : Char → Prop}
    (h : ∀ w ∈ ws, ∀ c, charLower c ∈ w.toList.map charLower → P c) :
    MPred (mAlts ws) P := by
  induction ws with
  | nil => exact mpred_fail
  | cons w ws' ih =>
    simp only [mAlts, List.foldr_cons]
    exact mpred_alt (mpred_litCI (h w (List.mem_cons_self w ws')))
      (ih fun w' hw' => h w' (List.mem_cons_of_mem w hw'))

theorem head?_mem {α : Type} {l : List α} {a : α} (h : l.head? = some a) :
    a ∈ l := by
  cases l <;> simp_all

theorem scanFirst_chars {m : Matcher} {P : Char → Prop} (hm : MPred m P) :
    ∀ (prev : Option Char) (l s : List Char),
      scanFirst m prev l = some s → ∀ c ∈ s, P c := by
  intro prev l
  induction l generalizing prev with
  | nil =>
    intro s hs
    rw [scanFirst] at hs
    cases hh : (m prev []).head? with
    | some n =>
      rw [hh] at hs
      simp at hs
      subst hs
      intro c hc
      simp at hc
    | none =>
      rw [hh] at hs
      simp at hs
  | cons d rs ih =>
    intro s hs
    rw [scanFirst] at hs
    cases hh : (m prev (d :: rs)).head? with
    | some n =>
      rw [hh] at hs
      simp at hs
      subst hs
      exact hm prev (d :: rs) n (head?_mem hh)
    | none =>
      rw [hh] at hs
      exact ih (some d) s hs

theorem scanAllGo_chars {m : Matcher} {P : Char → Prop} (hm : MPred m P) :
    ∀ (fuel : Nat) (prev : Option Char) (l : List Char) (s : List Char),
      s ∈ scanAllGo m fuel prev l → ∀ c ∈ s, P c := by
  intro fuel
  induction fuel with
  | zero =>
    intro prev l s hs
    simp [scanAllGo] at hs
  | succ fuel ih =>
    intro prev l s hs
    cases l with
    | nil =>
      rw [scanAllGo] at hs
      cases hh : (m prev []).head? with
      | some n =>
        rw [hh] at hs
        simp at hs
        subst hs
        simp
      | none =>
        rw [hh] at hs
        simp at hs
    | cons d rs =>
      rw [scanAllGo] at hs
      cases hh : (m prev (d :: rs)).head? with
      | some n =>
        rw [hh] at hs
        rcases List.mem_cons.mp hs with rfl | hs'
        · exact hm prev (d :: rs) n (head?_mem hh)
        · exact ih _ _ s hs'
      | none =>
        rw [hh] at hs
        exact ih (some d) rs s hs

/-!
## Lemmas about the pipeline helpers
-/

theorem dedupeByAux_mem {keyFn : List Char → List Char} :
    ∀ {seen : List (List Char)} {items : List (List Char)}
      {x : List Char}, x ∈ dedupeByAux keyFn seen items → x ∈ items := by
  intro seen items
  induction items generalizing seen with
  | nil => simp [dedupeByAux]
  | cons y ys ih =>
    intro x hx
    simp only [dedupeByAux] at hx
    split at hx
    · exact List.mem_cons_of_mem y (ih hx)
    · rcases List.mem_cons.mp hx with rfl | hx'
      · exact List.mem_cons_self _ _
      · exact List.mem_cons_of_mem y (ih hx')

theorem dedupeBy_mem {items : List (List Char)}
    {keyFn : List Char → List Char} {x : List Char}
    (h : x ∈ dedupeBy items keyFn) : x ∈ items :=
  dedupeByAux_mem h

/-- A non-empty result of `cleanPhoneCandidate` carries 7 to 20 digits. -/
theorem cleanPhoneCandidate_digits (phone : List Char)
    (h : cleanPhoneCandidate phone ≠ []) :
    7 ≤ ((cleanPhoneCandidate phone).filter isDigitChar).length ∧
      ((cleanPhoneCandidate phone).filter isDigitChar).length ≤ 20 := by
  simp only [cleanPhoneCandidate] at h ⊢
  split at h
  · exact absurd rfl h
  · rename_i hcond
    rw [if_neg hcond]
    simp at hcond
    omega

theorem replaceFirstWsRun_chars {c : Char} :
    ∀ {l : List Char}, c ∈ replaceFirstWsRun l → c ∈ l ∨ c = '.' := by
  intro l
  induction l with
  | nil => simp [replaceFirstWsRun]
  | cons d rest ih =>
    intro hc
    simp only [replaceFirstWsRun] at hc
    split at hc
    · rcases List.mem_cons.mp hc with rfl | hc'
      · exact Or.inr rfl
      · exact Or.inl (List.mem_cons_of_mem d (mem_dropWhile_sub hc'))
    · rcases List.mem_cons.mp hc with rfl | hc'
      · exact Or.inl (List.mem_cons_self _ _)
      · rcases ih hc' with h | h
        · exact Or.inl (List.mem_cons_of_mem d h)
        · exact Or.inr h

/-- No character of the spaced-website regex's alphabet is an `@`. -/
theorem spacedRe_no_at : MPred spacedRe (fun c => c ≠ '@') := by
  unfold spacedRe
  refine mpred_seq mpred_bound (mpred_seq (mpred_opt (mpred_litCI ?_))
    (mpred_seq (mpred_repCls ?_) (mpred_seq (mpred_repCls ?_)
      (mpred_seq (mpred_repClsB ?_) mpred_bound))))
  · intro c hc heq
    rw [heq] at hc
    revert hc
    decide
  · intro c hc heq
    rw [heq] at hc
    revert hc
    decide
  · intro c hc heq
    rw [heq] at hc
    revert hc
    decide
  · intro c hc heq
    rw [heq] at hc
    revert hc
    decide

/-!
## Blank input: every stage collapses to the empty value
-/

theorem collapseWsAux_allspace :
    ∀ (l : List Char), (∀ c ∈ l, isSpaceJS c = true) →
      (collapseWsAux true l = [' '] ∧
        collapseWsAux false l = (if l = [] then [] else [' '])) := by
  intro l
  induction l with
  | nil => simp [collapseWsAux]
  | cons c rest ih =>
    intro h
    have hc : isSpaceJS c = true := h c (List.mem_cons_self _ _)
    have hr := ih (fun d hd => h d (List.mem_cons_of_mem c hd))
    simp only [collapseWsAux, hc, if_pos]
    constructor
    · exact hr.1
    · simp [hr.1]

theorem normalizeLine_allspace (l : List Char)
    (h : ∀ c ∈ l, isSpaceJS c = true) : normalizeLine l = [] := by
  unfold normalizeLine
  rcases (collapseWsAux_allspace l h).2 with h2
  rw [h2]
  split
  · rfl
  · decide

theorem sanitizeOcrLine_allspace (l : List Char)
    (h : ∀ c ∈ l, isSpaceJS c = true) : sanitizeOcrLine l = [] := by
  unfold sanitizeOcrLine
  rw [normalizeLine_allspace l h]
  rfl

theorem splitLinesAux_allspace :
    ∀ (acc l : List Char), (∀ c ∈ acc, isSpaceJS c = true) →
      (∀ c ∈ l, isSpaceJS c = true) →
      ∀ piece ∈ splitLinesAux acc l, ∀ c ∈ piece, isSpaceJS c = true := by
  intro acc l
  induction acc, l using splitLinesAux.induct with
  | case1 acc =>
    intro hacc _ piece hp
    simp only [splitLinesAux] at hp
    simp at hp
    subst hp
    intro c hc
    exact hacc c (List.mem_reverse.mp hc)
  | case2 acc rest ih =>
    intro hacc hl piece hp
    simp only [splitLinesAux] at hp
    rcases List.mem_cons.mp hp with rfl | hp'
    · intro c hc
      exact hacc c (List.mem_reverse.mp hc)
    · exact ih (by simp)
        (fun c hc => hl c (by simp [hc])) piece hp'
  | case3 acc rest ih =>
    intro hacc hl piece hp
    simp only [splitLinesAux] at hp
    rcases List.mem_cons.mp hp with rfl | hp'
    · intro c hc
      exact hacc c (List.mem_reverse.mp hc)
    · exact ih (by simp)
        (fun c hc => hl c (by simp [hc])) piece hp'
  | case4 acc c rest hne1 hne2 ih =>
    intro hacc hl piece hp
    rw [splitLinesAux.eq_4 acc c rest hne1 hne2] at hp
    refine ih ?_ (fun d hd => hl d (by simp [hd])) piece hp
    intro d hd
    rcases List.mem_cons.mp hd with rfl | hd'
    · exact hl d (List.mem_cons_self _ _)
    · exact hacc d hd'

theorem linesOf_allspace (t : List Char)
    (h : ∀ c ∈ t, isSpaceJS c = true) : linesOf t = [] := by
  unfold linesOf
  rw [List.filter_eq_nil]
  intro piece hpiece
  rcases List.mem_map.mp hpiece with ⟨p0, hp0, rfl⟩
  have := splitLinesAux_allspace [] t (by simp) h p0 hp0
  simp [sanitizeOcrLine_allspace p0 this]

theorem mem_contains {c : Char} {l : List Char} (h : c ∈ l) :
    l.contains c = true := by
  induction l with
  | nil => simp at h
  | cons d rest ih =>
    rcases List.mem_cons.mp h with rfl | h'
    · simp [List.contains]
    · simp [List.contains]
      exact Or.inr h'

/-- The first email candidate is already trimmed. -/
theorem emailOf_trim_fixed (t : List Char) :
    jsTrim (emailOf t) = emailOf t := by
  unfold emailOf
  cases hE : emailsOf t with
  | nil => rfl
  | cons e es =>
    simp only [List.headD]
    have he : e ∈ emailsOf t := by
      rw [hE]
      exact List.mem_cons_self _ _
    unfold emailsOf at he
    rcases List.mem_map.mp (dedupeBy_mem he) with ⟨r, _, rfl⟩
    exact jsTrim_idem r

/-!
## The claims
-/

/-- C3: if the first (and then only attempted) pass throws, that failure
propagates; if the first pass succeeds the extraction never fails outright;
a failing enhanced pass is excluded from scoring and the first pass's draft
is returned. -/
theorem claim3_pass_failure (o : Nat → Except String String) :
    (∀ e, o 0 = .error e → extractCardRun o = (.error e, 1)) ∧
    (∀ t, o 0 = .ok t → ∃ d, (extractCardRun o).1 = .ok d) ∧
    (∀ t e, o 0 = .ok t → o 1 = .error e →
      extractCardRun o = (.ok (parseBusinessCardText t), 2)) := by
  refine ⟨?_, ?_, ?_⟩
  · intro e h0
    simp [extractCardRun, h0]
  · intro t h0
    cases h1 : o 1 with
    | error e =>
      exact ⟨parseBusinessCardText t, by simp [extractCardRun, h0, h1]⟩
    | ok t1 =>
      refine ⟨if scoreParsedCard (parseBusinessCardText t) <
          scoreParsedCard (parseBusinessCardText t1) then
          parseBusinessCardText t1 else parseBusinessCardText t, ?_⟩
      simp [extractCardRun, h0, h1]
  · intro t e h0 h1
    simp [extractCardRun, h0, h1]

/-- C3 witness: with both passes failing, the first failure is the result
of the only attempted pass. -/
theorem claim3_pass_failure_witness :
    extractCardRun (fun _ => Except.error "boom") =
      (Except.error "boom", 1) :=
  (claim3_pass_failure (fun _ => Except.error "boom")).1 "boom" rfl

/-- C1 counterexample: even when every pass succeeds, the orchestrator
attempts exactly two recognizer passes, not three. -/
theorem claim1_counterexample :
    (extractCardRun fun _ => Except.ok "").2 = 2 ∧
      (extractCardRun fun _ => Except.ok "").2 ≠ 3 := by
  constructor
  · rfl
  · intro h
    simp [extractCardRun] at h

/-- C1 amended: the orchestrator runs two passes (original, then enhanced),
parses each with the single linear parser, and returns the higher-scoring
draft, ties breaking toward the first pass. -/
theorem claim1_amended (o : Nat → Except String String) (t0 t1 : String)
    (h0 : o 0 = .ok t0) (h1 : o 1 = .ok t1) :
    (extractCardRun o).2 = 2 ∧
    ∃ d, (extractCardRun o).1 = .ok d ∧
      (d = parseBusinessCardText t0 ∨ d = parseBusinessCardText t1) ∧
      scoreParsedCard d = max (scoreParsedCard (parseBusinessCardText t0))
        (scoreParsedCard (parseBusinessCardText t1)) ∧
      (scoreParsedCard (parseBusinessCardText t1) ≤
          scoreParsedCard (parseBusinessCardText t0) →
        d = parseBusinessCardText t0) := by
  have hrun : extractCardRun o =
      (.ok (if scoreParsedCard (parseBusinessCardText t0) <
          scoreParsedCard (parseBusinessCardText t1) then
          parseBusinessCardText t1 else parseBusinessCardText t0), 2) := by
    simp [extractCardRun, h0, h1]
  rw [hrun]
  refine ⟨rfl, ?_⟩
  by_cases hlt : scoreParsedCard (parseBusinessCardText t0) <
      scoreParsedCard (parseBusinessCardText t1)
  · rw [if_pos hlt]
    refine ⟨parseBusinessCardText t1, rfl, Or.inr rfl, by omega, ?_⟩
    intro hle
    exact absurd hlt (Nat.not_lt.mpr hle)
  · rw [if_neg hlt]
    refine ⟨parseBusinessCardText t0, rfl, Or.inl rfl, by omega, ?_⟩
    intro _
    rfl

/-- C1 amended witness: both passes succeed on a concrete oracle. -/
theorem claim1_amended_witness :
    (extractCardRun fun n =>
        if n = 0 then Except.ok "a@b.cc" else Except.ok "").2 = 2 ∧
    ∃ d, (extractCardRun fun n =>
        if n = 0 then Except.ok "a@b.cc" else Except.ok "").1 = .ok d ∧
      (d = parseBusinessCardText "a@b.cc" ∨ d = parseBusinessCardText "") ∧
      scoreParsedCard d = max (scoreParsedCard (parseBusinessCardText
        "a@b.cc")) (scoreParsedCard (parseBusinessCardText "")) ∧
      (scoreParsedCard (parseBusinessCardText "") ≤
          scoreParsedCard (parseBusinessCardText "a@b.cc") →
        d = parseBusinessCardText "a@b.cc") :=
  claim1_amended (fun n => if n = 0 then Except.ok "a@b.cc"
    else Except.ok "") "a@b.cc" "" rfl rfl

/-- C5: a non-empty email field always matches the anchored
`local@domain.tld` shape regex. -/
theorem claim5_email_shape (text : String)
    (h : (parseBusinessCardText text).email ≠ "") :
    reTestAt0 emailShapeRe (parseBusinessCardText text).email.data =
      true := by
  simp only [parseBusinessCardText] at h ⊢
  by_cases hv : isValidEmail (emailOf text.data) = true
  · rw [if_pos hv] at h ⊢
    unfold isValidEmail at hv
    rw [emailOf_trim_fixed text.data] at hv
    exact hv
  · rw [if_neg hv] at h
    exact absurd rfl h

/-- C5 witness: a concrete input with a non-empty email field. -/
theorem claim5_email_shape_witness :
    (parseBusinessCardText "a@b.cc").email ≠ "" ∧
      reTestAt0 emailShapeRe (parseBusinessCardText "a@b.cc").email.data =
        true :=
  ⟨by decide, claim5_email_shape "a@b.cc" (by decide)⟩

/-- C6: a non-empty phone field has 7 to 20 digit characters. -/
theorem claim6_phone_digits (text : String)
    (h : (parseBusinessCardText text).phone ≠ "") :
    7 ≤ ((parseBusinessCardText text).phone.data.filter
        isDigitChar).length ∧
      ((parseBusinessCardText text).phone.data.filter
        isDigitChar).length ≤ 20 := by
  simp only [parseBusinessCardText] at h ⊢
  have hne : cleanPhoneCandidate (phoneOf text.data) ≠ [] := by
    intro heq
    rw [heq] at h
    exact h rfl
  exact cleanPhoneCandidate_digits (phoneOf text.data) hne

/-- C6 witness: a concrete input with a non-empty phone field. -/
theorem claim6_phone_digits_witness :
    (parseBusinessCardText "tel 12345678").phone ≠ "" ∧
      (7 ≤ ((parseBusinessCardText "tel 12345678").phone.data.filter
          isDigitChar).length ∧
        ((parseBusinessCardText "tel 12345678").phone.data.filter
          isDigitChar).length ≤ 20) :=
  ⟨by decide, claim6_phone_digits "tel 12345678" (by decide)⟩

/-- C7: a non-empty website field never contains an `@`. -/
theorem claim7_website_no_at (text : String)
    (h : (parseBusinessCardText text).website ≠ "") :
    ∀ c ∈ (parseBusinessCardText text).website.data, c ≠ '@' := by
  simp only [parseBusinessCardText] at h ⊢
  simp only [websiteOf] at h ⊢
  by_cases hcond : websiteRawOf text.data ≠ [] ∧
      ¬(websiteRawOf text.data).contains '@' = true
  · rw [if_pos hcond] at h ⊢
    intro c hc heq
    subst heq
    exact hcond.2 (mem_contains hc)
  · rw [if_neg hcond] at h ⊢
    simp only [spacedWebsiteFixedOf] at h ⊢
    by_cases hs : spacedWebsiteOf text.data ≠ []
    · rw [if_pos hs] at h ⊢
      intro c hc
      rcases replaceFirstWsRun_chars hc with hmem | rfl
      · have hsp : spacedWebsiteOf text.data =
            pickFirstMatch (websiteSrcOf text.data) spacedRe := rfl
        rw [hsp] at hmem
        unfold pickFirstMatch at hmem
        cases hscan : scanFirst spacedRe none (websiteSrcOf text.data) with
        | none =>
          rw [hscan] at hmem
          simp at hmem
        | some m =>
          rw [hscan] at hmem
          exact scanFirst_chars spacedRe_no_at none _ m hscan c
            (jsTrim_mem_sub hmem)
      · decide
    · rw [if_neg hs] at h
      exact absurd rfl h

/-- C7 witness: a concrete input with a non-empty website field. -/
theorem claim7_website_no_at_witness :
    (parseBusinessCardText "acme.com").website ≠ "" ∧
      ∀ c ∈ (parseBusinessCardText "acme.com").website.data, c ≠ '@' :=
  ⟨by decide, claim7_website_no_at "acme.com" (by decide)⟩

/-- C4: the parser is total — every field of the returned record is a
(possibly empty) string by construction — and an entirely blank recognized
text yields the record with all seven fields empty rather than an error. -/
theorem claim4_blank_total (text : String)
    (h : ∀ c ∈ text.data, isSpaceJS c = true) :
    parseBusinessCardText text = emptyCard := by
  have hl : linesOf text.data = [] := linesOf_allspace text.data h
  have hj : joinedOf text.data = [] := by
    unfold joinedOf
    rw [hl]
    rfl
  have hemails : emailsOf text.data = [] := by
    unfold emailsOf
    rw [hj]
    rfl
  have hemail : emailOf text.data = [] := by
    unfold emailOf
    rw [hemails]
    rfl
  have hphones : phonesOf text.data = [] := by
    unfold phonesOf
    rw [hj]
    rfl
  have hcleanph : cleanPhonesOf text.data = [] := by
    unfold cleanPhonesOf
    rw [hphones]
    rfl
  have hphone : phoneOf text.data = [] := by
    unfold phoneOf
    rw [hcleanph]
    rfl
  have hwsrc : websiteSrcOf text.data = [' '] := by
    unfold websiteSrcOf
    rw [hj, hemail]
    rfl
  have hraw : websiteRawOf text.data = [] := by
    unfold websiteRawOf
    rw [hwsrc]
    rfl
  have hspaced : spacedWebsiteOf text.data = [] := by
    unfold spacedWebsiteOf
    rw [hwsrc]
    rfl
  have hfixed : spacedWebsiteFixedOf text.data = [] := by
    unfold spacedWebsiteFixedOf
    rw [hspaced]
    rfl
  have hweb : websiteOf text.data = [] := by
    unfold websiteOf
    rw [hraw, hfixed]
    rfl
  have hncl : nonContactLinesOf text.data = [] := by
    unfold nonContactLinesOf
    rw [hl]
    rfl
  have hheur : heuristicNameOf text.data = [] := by
    unfold heuristicNameOf
    rw [hncl]
    rfl
  have hextr : extractedNameOf text.data = [] := by
    unfold extractedNameOf
    rw [hncl]
    rfl
  have hname : nameOf text.data = [] := by
    unfold nameOf
    rw [hextr, hheur]
    rfl
  have hrem : remainingOf text.data = [] := by
    unfold remainingOf
    rw [hncl]
    rfl
  have hsegs : splitSegmentsOf text.data = [] := by
    unfold splitSegmentsOf
    rw [hrem]
    rfl
  have htl : titleLinesOf text.data = [] := by
    unfold titleLinesOf
    rw [hsegs]
    rfl
  have htitle : titleOf text.data = [] := by
    unfold titleOf
    rw [htl]
    rfl
  have hrem2 : remaining2Of text.data = [] := by
    unfold remaining2Of
    rw [hsegs]
    rfl
  have hcomp : companyOf text.data = [] := by
    unfold companyOf
    rw [hrem2]
    rfl
  have hrem3 : remaining3Of text.data = [] := by
    unfold remaining3Of
    rw [hrem2]
    rfl
  have haddr : addressOf text.data = [] := by
    unfold addressOf
    rw [hrem3]
    rfl
  unfold parseBusinessCardText
  rw [hname, htitle, hcomp, hemail, hphone, hweb, haddr]
  rfl

/-- C4 witness: a concrete blank input. -/
theorem claim4_blank_total_witness :
    (∀ c ∈ (" \n  " : String).data, isSpaceJS c = true) ∧
      parseBusinessCardText " \n  " = emptyCard :=
  ⟨by decide, claim4_blank_total " \n  " (by decide)⟩

set_option maxRecDepth 1000000 in
/-- C2: scenario 1 — the seven-line sample card parses to the expected
fields: name, title containing "Engineer", company, email, an in-range
11-digit phone, the website kept as "www.acme.com", and an address
containing "123 Main Street". -/
theorem claim2_scenario1 :
    (parseBusinessCardText "John Smith\nSenior Engineer\nAcme Corp\njohn.smith@acme.com\n+1 415 555 0100\nwww.acme.com\n123 Main Street, Springfield").name = "John Smith" ∧
    containsSub (parseBusinessCardText "John Smith\nSenior Engineer\nAcme Corp\njohn.smith@acme.com\n+1 415 555 0100\nwww.acme.com\n123 Main Street, Springfield").title.data ("Engineer" : String).data = true ∧
    (parseBusinessCardText "John Smith\nSenior Engineer\nAcme Corp\njohn.smith@acme.com\n+1 415 555 0100\nwww.acme.com\n123 Main Street, Springfield").company = "Acme Corp" ∧
    (parseBusinessCardText "John Smith\nSenior Engineer\nAcme Corp\njohn.smith@acme.com\n+1 415 555 0100\nwww.acme.com\n123 Main Street, Springfield").email = "john.smith@acme.com" ∧
    ((parseBusinessCardText "John Smith\nSenior Engineer\nAcme Corp\njohn.smith@acme.com\n+1 415 555 0100\nwww.acme.com\n123 Main Street, Springfield").phone.data.filter isDigitChar = ("14155550100" : String).data ∧
      ((parseBusinessCardText "John Smith\nSenior Engineer\nAcme Corp\njohn.smith@acme.com\n+1 415 555 0100\nwww.acme.com\n123 Main Street, Springfield").phone.data.filter isDigitChar).length = 11 ∧
      7 ≤ ((parseBusinessCardText "John Smith\nSenior Engineer\nAcme Corp\njohn.smith@acme.com\n+1 415 555 0100\nwww.acme.com\n123 Main Street, Springfield").phone.data.filter isDigitChar).length ∧
      ((parseBusinessCardText "John Smith\nSenior Engineer\nAcme Corp\njohn.smith@acme.com\n+1 415 555 0100\nwww.acme.com\n123 Main Street, Springfield").phone.data.filter isDigitChar).length ≤ 20) ∧
    ((parseBusinessCardText "John Smith\nSenior Engineer\nAcme Corp\njohn.smith@acme.com\n+1 415 555 0100\nwww.acme.com\n123 Main Street, Springfield").website = "acme.com" ∨
      (parseBusinessCardText "John Smith\nSenior Engineer\nAcme Corp\njohn.smith@acme.com\n+1 415 555 0100\nwww.acme.com\n123 Main Street, Springfield").website = "www.acme.com") ∧
    containsSub (parseBusinessCardText "John Smith\nSenior Engineer\nAcme Corp\njohn.smith@acme.com\n+1 415 555 0100\nwww.acme.com\n123 Main Street, Springfield").address.data ("123 Main Street" : String).data = true := by
  decide

set_option maxRecDepth 1000000 in
/-- C10: `cleanPhoneCandidate` is not idempotent and the parser applies it
twice: the candidate "123 456 7 8 9" cleans to the accepted 7-digit
"123 456 7" (so it becomes the chosen `phone`), but the second application
at record assembly strips the trailing isolated digit again, drops the
count below 7, and the returned phone field is empty. -/
theorem claim10_phone_double_clean :
    cleanPhoneCandidate ("123 456 7 8 9" : String).data =
      ("123 456 7" : String).data ∧
    ((("123 456 7" : String).data).filter isDigitChar).length = 7 ∧
    cleanPhoneCandidate ("123 456 7" : String).data = [] ∧
    cleanPhoneCandidate (cleanPhoneCandidate
        ("123 456 7 8 9" : String).data) ≠
      cleanPhoneCandidate ("123 456 7 8 9" : String).data ∧
    phoneOf ("123 456 7 8 9" : String).data = ("123 456 7" : String).data ∧
    (parseBusinessCardText "123 456 7 8 9").phone = "" := by
  decide

set_option maxRecDepth 1000000 in
/-- C9 counterexample: on this input the record's phone is "123 4567890",
and the address field — after `cleanupFieldText` drops the artifact token
"Boy" between "123" and "4567890" — contains that very phone token, so a
non-contact field does contain a contact token of the same record. -/
theorem claim9_counterexample :
    (parseBusinessCardText "123 4567890\nStreet 123 Boy 4567890").phone =
      "123 4567890" ∧
    (parseBusinessCardText "123 4567890\nStreet 123 Boy 4567890").phone ≠
      "" ∧
    (parseBusinessCardText "123 4567890\nStreet 123 Boy 4567890").address =
      "Street 123 4567890" ∧
    containsSub
      (parseBusinessCardText
        "123 4567890\nStreet 123 Boy 4567890").address.data
      (parseBusinessCardText
        "123 4567890\nStreet 123 Boy 4567890").phone.data = true := by
  decide

/-- C9 amended: contact tokens are removed (case-insensitively,
token-escaped) from every line before downstream field classification —
each line the classifier sees is the `stripContactTokens` image of an input
line under the record's token list — but later field cleanup can splice a
contact token back together inside a field, so the field-level containment
guarantee does not hold in general. -/
theorem claim9_amended (text : String) (l : List Char)
    (hmem : l ∈ nonContactLinesOf text.data) :
    l ≠ [] ∧ ∃ l0, l0 ∈ linesOf text.data ∧
      l = cleanSemanticLine (stripContactTokens l0
        (contactTokensOf text.data)) := by
  unfold nonContactLinesOf at hmem
  rcases List.mem_filter.mp hmem with ⟨hmem2, hne⟩
  rcases List.mem_map.mp hmem2 with ⟨l1, hl1, rfl⟩
  rcases List.mem_map.mp hl1 with ⟨l0, hl0, rfl⟩
  exact ⟨by simpa using hne, l0, hl0, rfl⟩

set_option maxRecDepth 1000000 in
/-- C9 amended witness: a concrete classified line arising by stripping. -/
theorem claim9_amended_witness :
    ("Hello World" : String).data ∈
      nonContactLinesOf ("Hello World a@b.cc" : String).data ∧
    (("Hello World" : String).data ≠ [] ∧
      ∃ l0, l0 ∈ linesOf ("Hello World a@b.cc" : String).data ∧
        ("Hello World" : String).data = cleanSemanticLine
          (stripContactTokens l0
            (contactTokensOf ("Hello World a@b.cc" : String).data))) :=
  ⟨by decide, claim9_amended "Hello World a@b.cc"
    ("Hello World" : String).data (by decide)⟩

set_option maxRecDepth 1000000 in
/-- C8 counterexample: the input "WWW.ACME.COM" yields the website field
"WWW.ACME.COM" verbatim — not lower-cased and with the leading "www."
kept — whereas the claimed normalization would produce "acme.com". -/
theorem claim8_counterexample :
    (parseBusinessCardText "WWW.ACME.COM").website = "WWW.ACME.COM" ∧
    specNormalizeWebsite ("WWW.ACME.COM" : String).data =
      ("acme.com" : String).data ∧
    (parseBusinessCardText "WWW.ACME.COM").website.data ≠
      specNormalizeWebsite
        (parseBusinessCardText "WWW.ACME.COM").website.data := by
  decide

/-- C8 amended: the website field is not normalized; it is either empty,
the verbatim (trimmed) first URL/domain-shaped match — in which case it
contains no `@` — or the spaced-domain repair with the first whitespace
run replaced by a dot. -/
theorem claim8_amended (text : String) :
    (parseBusinessCardText text).website = "" ∨
    ((parseBusinessCardText text).website.data = websiteRawOf text.data ∧
      ¬(websiteRawOf text.data).contains '@' = true) ∨
    (parseBusinessCardText text).website.data =
      spacedWebsiteFixedOf text.data := by
  simp only [parseBusinessCardText]
  simp only [websiteOf]
  by_cases hcond : websiteRawOf text.data ≠ [] ∧
      ¬(websiteRawOf text.data).contains '@' = true
  · rw [if_pos hcond]
    exact Or.inr (Or.inl ⟨rfl, hcond.2⟩)
  · rw [if_neg hcond]
    exact Or.inr (Or.inr rfl)

end BizcardOcr
